import Mathlib

/-!
Verification development for the BIST-100 commodities analysis pipeline.

The Python sources (`data.py`, `data_collector.py`, `model.py`,
`model_trainer.py`, `app.py`) are shallowly embedded below: pandas
DataFrames become lists of named columns over `ℚ` (with `Option ℚ` for
missing values), positional pandas operations become index-wise list
operations, and fallible operations return `Option`/`Except`.
-/

namespace Bist

/-! ## Price and change tables -/

/-- A raw price table (`pd.DataFrame` of closing prices): a date index and
one value column per series.  Acquisition forward/backward-fills gaps, so
price values carry no missingness. -/
structure PriceTable where
  dates : List Int
  cols : List (String × List ℚ)
deriving DecidableEq

/-- A derived table whose entries may be missing (`NaN`), e.g. the result
of `pct_change` or `shift`. -/
structure ChangeTable where
  dates : List Int
  cols : List (String × List (Option ℚ))
deriving DecidableEq

/-- Strictly increasing date index (sorted, no duplicate dates). -/
def strictlyIncreasing : List Int → Bool
  | [] => true
  | [_] => true
  | a :: b :: rest => a < b && strictlyIncreasing (b :: rest)

/-- The PriceTable invariant from the data model: strictly increasing date
index, at least one tracked series (acquisition signals the zero-symbol
case as a failure instead of producing a columnless table), every column
aligned with the index, and positive closing prices. -/
def validPriceTable (t : PriceTable) : Prop :=
  strictlyIncreasing t.dates = true ∧ t.cols ≠ [] ∧
    ∀ c ∈ t.cols, c.2.length = t.dates.length ∧ ∀ x ∈ c.2, 0 < x

instance (t : PriceTable) : Decidable (validPriceTable t) :=
  inferInstanceAs (Decidable (_ ∧ _ ∧ ∀ c ∈ t.cols, _ ∧ ∀ x ∈ c.2, 0 < x))

/-- One column of pandas `df.pct_change()`: entry `0` is missing (no prior
day), entry `i ≥ 1` is `(v[i] - v[i-1]) / v[i-1]`.  Prices in this
development are positive (`validPriceTable`), so the zero-divisor corner
(where pandas produces infinity rather than `NaN`) is unreachable. -/
def pctChangeCol (v : List ℚ) : List (Option ℚ) :=
  (List.range v.length).map (fun i =>
    if i = 0 then none
    else some ((v.getD i 0 - v.getD (i - 1) 0) / v.getD (i - 1) 0))

/-- `df.pct_change()` applied to every column of a price table. -/
def pctChangeTable (t : PriceTable) : ChangeTable :=
  ⟨t.dates, t.cols.map (fun c => (c.1, pctChangeCol c.2))⟩

/-- Whether row `i` has a (non-missing) value in every column. -/
def completeRow (cols : List (String × List (Option ℚ))) (i : ℕ) : Bool :=
  cols.all (fun c => (c.2.getD i none).isSome)

/-- The row positions kept by `df.dropna()`: those where no column is
missing a value. -/
def completeRows (n : ℕ) (cols : List (String × List (Option ℚ))) : List ℕ :=
  (List.range n).filter (fun i => completeRow cols i)

/-- Pandas `df.dropna()`: keep exactly the rows where every column has a
value. -/
def dropna (c : ChangeTable) : ChangeTable :=
  ⟨(completeRows c.dates.length c.cols).map (fun i => c.dates.getD i 0),
   c.cols.map (fun col =>
     (col.1, (completeRows c.dates.length c.cols).map (fun i => col.2.getD i none)))⟩

/-- `df.pct_change().dropna()` as computed by both `prepare_data`
(`data.py` line 179) and `analyze_lag_importance` (`data.py` line 221). -/
def changeFrame (t : PriceTable) : ChangeTable := dropna (pctChangeTable t)

/-- The feature builder's ChangeTable (`data.py` lines 179-180):
`df.pct_change().dropna()` with every column renamed to `<col>_change`. -/
def changeTable (t : PriceTable) : ChangeTable :=
  ⟨(changeFrame t).dates, (changeFrame t).cols.map (fun c => (c.1 ++ "_change", c.2))⟩

/-! ## Direction labels -/

/-- The next-day direction label series built by `prepare_data`
(`data.py` lines 186-190) and `prepare_training_data`
(`data_collector.py` lines 146-150): `today = prices[:-1]`,
`tomorrow = prices[1:]`, `target = (tomorrow > today).astype(int)`,
indexed by `df.index[:-1]`. -/
def targetLabels (prices : List ℚ) : List ℕ :=
  List.zipWith (fun today tomorrow => if tomorrow > today then 1 else 0)
    prices.dropLast prices.tail

/-! ## Lag features -/

/-- Python `s.startswith(p)`, expressed over the underlying character
lists so that it evaluates inside the kernel. -/
def strStartsWith (s p : String) : Bool :=
  decide (s.data.take p.data.length = p.data)

/-- Pandas `series.shift(lag)` for `lag ≥ 0`: the first `lag` entries
become missing, entry `i ≥ lag` holds the value from `lag` rows
earlier. -/
def shiftCol (lag : ℕ) (v : List (Option ℚ)) : List (Option ℚ) :=
  (List.range v.length).map (fun i => if i < lag then none else v.getD (i - lag) none)

/-- The lagged feature columns appended by `add_lag_features` (`data.py`
lines 140-147): for every column whose name does not start with
`BIST100` and every configured lag, a column `<col>_lag<lag>` holding
that column shifted by `lag`. -/
def lagColumns (cols : List (String × List (Option ℚ))) (lagDays : List ℕ) :
    List (String × List (Option ℚ)) :=
  (cols.filter (fun col => !strStartsWith col.1 "BIST100")).flatMap
    (fun col => lagDays.map
      (fun lag => (col.1 ++ "_lag" ++ toString lag, shiftCol lag col.2)))

/-- `add_lag_features` (`data.py` lines 122-152): append the lagged
copies of the non-`BIST100` columns, then drop every row containing a
missing value. -/
def addLagFeatures (c : ChangeTable) (lagDays : List ℕ) : ChangeTable :=
  dropna ⟨c.dates, c.cols ++ lagColumns c.cols lagDays⟩

/-- The largest configured lag. -/
def maxLag (lagDays : List ℕ) : ℕ := lagDays.foldr max 0

/-! ## Model selection (`model.py`, `train_with_different_params`) -/

/-- One XGBoost hyper-parameter combination (`model.py` lines 168-174). -/
structure HyperParams where
  n_estimators : ℕ
  learning_rate : ℚ
  max_depth : ℕ
deriving DecidableEq

/-- The fixed 5-candidate grid (`model.py` lines 168-174). -/
def paramCombinations : List HyperParams :=
  [⟨100, 1/10, 3⟩, ⟨200, 1/20, 5⟩, ⟨100, 1/10, 6⟩, ⟨150, 1/20, 4⟩, ⟨100, 1/100, 7⟩]

/-- Selection state: `best_accuracy` starts at `0` and `best_model` at
`None` (`model.py` lines 176-179); the best candidate is tracked here by
its position in the candidate list. -/
structure SelState where
  bestAccuracy : ℚ
  best : Option ℕ
deriving DecidableEq

/-- One iteration of the candidate loop (`model.py` lines 204-209): a
candidate replaces the current best only when its accuracy is strictly
greater. -/
def selectStep (s : SelState) (ia : ℕ × ℚ) : SelState :=
  if ia.2 > s.bestAccuracy then ⟨ia.2, some ia.1⟩ else s

/-- The selection loop of `train_with_different_params`
(`model.py` lines 181-209).  Training and evaluating the XGBoost
classifier happens in an external library; `accs` is the list of
per-candidate held-out accuracies it produces. -/
def selectBest (accs : List ℚ) : SelState :=
  accs.enum.foldl selectStep ⟨0, none⟩

/-- Observable outcome of `train_with_different_params` after the loop:
which candidate was retained, its accuracy, whether `save_model` ran,
and the success-criterion flag when it was computed. -/
structure TrainOutcome where
  best : Option ℕ
  bestAccuracy : ℚ
  saved : Bool
  successFlag : Option Bool
deriving DecidableEq

/-- The success criterion threshold (`model.py` line 231). -/
def successThreshold : ℚ := 55 / 100

/-- Post-selection behaviour of `train_with_different_params`
(`model.py` lines 211-242): `save_model` and the success-criterion check
(`best_accuracy > 0.55`) both sit inside
`if best_model is not None and verbose:`; the success flag is only
reported and never gates persistence. -/
def trainWithDifferentParams (accs : List ℚ) (verbose : Bool) : TrainOutcome :=
  let s := selectBest accs
  if s.best.isSome && verbose then
    ⟨s.best, s.bestAccuracy, true, some (decide (successThreshold < s.bestAccuracy))⟩
  else
    ⟨s.best, s.bestAccuracy, false, none⟩

/-! ## Prediction serving (`app.py`, tab 2) -/

/-- The served feature vector (`app.py` lines 188-208).  `modelFeatures`
is the stored feature-name list from the model metadata (`none` when no
metadata file was found) and `changeRow` is the computed change row as
(column name, value) pairs.  Python's `if model_features:` treats an
empty stored list like a missing one, falling back to all current
changes.  When every stored name is present the row is selected and
reordered (`all_change_features[model_features]`); otherwise a zero
vector of the stored length is filled with whichever features are
present. -/
def prepareServingFeatures (modelFeatures : Option (List String))
    (changeRow : List (String × ℚ)) : List ℚ :=
  match modelFeatures with
  | some feats =>
    if feats.isEmpty then
      changeRow.map (fun c => c.2)
    else if feats.all (fun f => (changeRow.lookup f).isSome) then
      feats.map (fun f => (changeRow.lookup f).getD 0)
    else
      feats.map (fun f => (changeRow.lookup f).getD 0)
  | none => changeRow.map (fun c => c.2)

/-! ## Lag-correlation analysis (`data.py`, `analyze_lag_importance`) -/

/-- One long-form record appended by the analyzer loop (`data.py`
lines 246-250): variable name, lag in days, correlation value
(`none` models pandas `NaN`). -/
structure LagCorrRecord where
  var : String
  lag_days : ℕ
  correlation : Option ℚ
deriving DecidableEq

/-- Column access by name (pandas `df[name]`); `none` models the
`KeyError` raised when the column is absent. -/
def lookupCol (cols : List (String × List (Option ℚ))) (name : String) :
    Option (List (Option ℚ)) :=
  cols.lookup name

/-- Arithmetic mean of a list of rationals. -/
def meanQ (l : List ℚ) : ℚ := l.sum / l.length

/-- Pearson correlation of two aligned series as computed by pandas
`Series.corr`: undefined (`NaN`, here `none`) when fewer than two points
are available or when either series has zero variance.  Pandas returns
`r = cov / sqrt(varx·vary)`, which is irrational in general; this
embedding returns the sign-preserving square `r·|r| =
cov·|cov| / (varx·vary)`, a rational value that determines `r`
uniquely.  The claims below are about which aligned series the analyzer
hands to the correlation and when the result is defined, not about the
numeric formula itself. -/
def pearson (xs ys : List ℚ) : Option ℚ :=
  if xs.length < 2 then none
  else
    let mx := meanQ xs
    let my := meanQ ys
    let cov := (List.zipWith (fun a b => (a - mx) * (b - my)) xs ys).sum
    let vx := (xs.map (fun a => (a - mx) ^ 2)).sum
    let vy := (ys.map (fun b => (b - my) ^ 2)).sum
    if vx = 0 ∨ vy = 0 then none
    else some (cov * |cov| / (vx * vy))

/-- The row positions underlying
`lagged_series.dropna().index.intersection(target.index)` (`data.py`
line 240): the positions of the frame where the shifted column still
has a value. -/
def validPositions (n : ℕ) (v : List (Option ℚ)) (lag : ℕ) : List ℕ :=
  (List.range n).filter (fun i => ((shiftCol lag v).getD i none).isSome)

/-- `lagged_series.dropna().index.intersection(target.index)` itself:
the dates at the valid positions, intersected with the frame's index
(the target series' index).  Every such date already lies in the
frame's index, so the intersection filter leaves the list unchanged. -/
def validIdx (dates : List Int) (v : List (Option ℚ)) (lag : ℕ) : List Int :=
  ((validPositions dates.length v lag).map (fun i => dates.getD i 0)).filter
    (fun d => decide (d ∈ dates))

/-- `series.loc[valid_idx]` for a series of the (dropna'd, hence fully
populated) frame, taken by position; the `none` default is
unreachable there. -/
def valsAt (v : List (Option ℚ)) (positions : List ℕ) : List ℚ :=
  positions.map (fun i => (v.getD i none).getD 0)

/-- The nested loops of `analyze_lag_importance` (`data.py` lines
230-250) once the target series `tv` has been fetched: for every column
other than the target and every lag in 1..30, emit a record iff
`valid_idx` is non-empty, correlating target and shifted series over
exactly those rows. -/
def lagCorrRecordsAux (c : ChangeTable) (targetCol : String)
    (tv : List (Option ℚ)) : List LagCorrRecord :=
  (c.cols.filter (fun col => decide (col.1 ≠ targetCol))).flatMap (fun col =>
    (List.range' 1 30).filterMap (fun lag =>
      if validIdx c.dates col.2 lag ≠ [] then
        some ⟨col.1, lag,
          pearson (valsAt tv (validPositions c.dates.length col.2 lag))
            (valsAt (shiftCol lag col.2) (validPositions c.dates.length col.2 lag))⟩
      else none))

/-- The analyzer's long-form record list (`data.py` lines 220-250):
`df_pct = df.pct_change().dropna()`, `target = df_pct[target_col]`,
then the nested correlation loops.  A missing target column raises
`KeyError` in the source; that case is handled in
`analyzeLagImportance` below. -/
def lagCorrRecords (t : PriceTable) (targetCol : String) : List LagCorrRecord :=
  match lookupCol (changeFrame t).cols targetCol with
  | none => []
  | some tv => lagCorrRecordsAux (changeFrame t) targetCol tv

/-- `pd.DataFrame(lag_corrs).pivot(index='variable', columns='lag_days',
values='correlation')` (`data.py` lines 253-256).  A DataFrame built
from an empty record list has no columns at all, so `pivot` raises
`KeyError: 'variable'`; otherwise each distinct variable becomes a row
of (lag, correlation) entries. -/
def pivotRecords (records : List LagCorrRecord) :
    Except String (List (String × List (ℕ × Option ℚ))) :=
  if records.isEmpty then
    Except.error "KeyError: variable"
  else
    Except.ok ((records.map (fun r => r.var)).dedup.map (fun v =>
      (v, records.filterMap (fun r =>
        if r.var = v then some (r.lag_days, r.correlation) else none))))

/-- `analyze_lag_importance` (`data.py` lines 203-258) end to end:
returns the long-form table and the pivot, or the exception the source
would raise (missing target column, or pivoting an empty record
collection). -/
def analyzeLagImportance (t : PriceTable) (targetCol : String) :
    Except String (List LagCorrRecord × List (String × List (ℕ × Option ℚ))) :=
  match lookupCol (changeFrame t).cols targetCol with
  | none => Except.error "KeyError: target column"
  | some _ =>
    match pivotRecords (lagCorrRecords t targetCol) with
    | Except.error e => Except.error e
    | Except.ok p => Except.ok (lagCorrRecords t targetCol, p)

/-- A concrete five-day price table exercising the analyzer. -/
def samplePriceTable : PriceTable :=
  ⟨[0, 1, 2, 3, 4], [("BIST100", [1, 2, 4, 5, 10]), ("Gold", [1, 3, 3, 6, 6])]⟩

/-- The target change series of `samplePriceTable`'s change frame. -/
def sampleTargetChanges : List (Option ℚ) :=
  (lookupCol (changeFrame samplePriceTable).cols "BIST100").getD []

/-- The `Gold` change series of `samplePriceTable`'s change frame. -/
def sampleGoldChanges : List (Option ℚ) :=
  (lookupCol (changeFrame samplePriceTable).cols "Gold").getD []

/-! ## Data acquisition (`data_collector.py`, `download_data`) -/

/-- A raw downloaded table: a date index plus possibly-gappy columns. -/
structure RawTable where
  dates : List Int
  cols : List (String × List (Option ℚ))
deriving DecidableEq

/-- The per-symbol acquisition step (`data_collector.py` lines 68-81):
the provider is abstracted as a function from ticker to close-price
series (`none` models a raised exception, which the `try/except`
swallows); an empty downloaded frame is also discarded
(`if not ticker_data.empty`). -/
def retrievedSeries (provider : String → Option (List (Int × ℚ)))
    (sym : String) : Option (List (Int × ℚ)) :=
  match provider sym with
  | some ser => if ser.isEmpty then none else some ser
  | none => none

/-- Merging the per-symbol series into one DataFrame keyed by date
(`data_collector.py` lines 88-90): `df[name] = series` aligns every
series on the sorted union of the date indices, leaving `NaN` where a
series lacks a date. -/
def mergeSeries (frames : List (String × List (Int × ℚ))) : RawTable :=
  let allDates := ((frames.flatMap (fun f => f.2.map (fun p => p.1))).dedup).foldr
    (fun d acc => acc.orderedInsert (· ≤ ·) d) []
  ⟨allDates, frames.map (fun f => (f.1, allDates.map (fun d => f.2.lookup d)))⟩

/-- Forward fill (pandas `ffill`): carry the last seen value onto
missing entries. -/
def ffillCol : Option ℚ → List (Option ℚ) → List (Option ℚ)
  | _, [] => []
  | last, none :: xs => last :: ffillCol last xs
  | _, some v :: xs => some v :: ffillCol (some v) xs

/-- Backward fill (pandas `bfill`): forward fill run backwards. -/
def bfillCol (v : List (Option ℚ)) : List (Option ℚ) :=
  (ffillCol none v.reverse).reverse

/-- The conditional gap fill (`data_collector.py` lines 93-95): `ffill`
then `bfill`, applied only when some value is missing. -/
def fillNa (t : RawTable) : RawTable :=
  if t.cols.any (fun c => c.2.any (fun x => x.isNone)) then
    ⟨t.dates, t.cols.map (fun c => (c.1, bfillCol (ffillCol none c.2)))⟩
  else t

/-- `download_data` (`data_collector.py` lines 31-97): try each symbol
independently, keep the successfully retrieved non-empty series, return
`None` when zero symbols were retrievable, otherwise the merged and
gap-filled table of exactly the retrieved symbols. -/
def downloadData (provider : String → Option (List (Int × ℚ)))
    (symbols : List (String × String)) : Option RawTable :=
  let dataFrames := symbols.filterMap
    (fun s => (retrievedSeries provider s.2).map (fun ser => (s.1, ser)))
  if dataFrames.isEmpty then none
  else some (fillNa (mergeSeries dataFrames))

/-- A provider for which only the `XU100.IS` ticker resolves. -/
def sampleProvider : String → Option (List (Int × ℚ)) :=
  fun sym => if sym = "XU100.IS" then some [(0, 10), (1, 11)] else none

/-! ## Standardization at preparation vs. serving (`data.py`/`app.py`) -/

/-- The label frame's index `df.index[:-1]` (`data.py` line 187). -/
def targetIdx (t : PriceTable) : List Int := t.dates.dropLast

/-- `X_data = df_pct.loc[clean_idx]` with
`clean_idx = df_pct.index.intersection(df_target.index)` (`data.py`
lines 192-194), taken by position (the date index is duplicate-free). -/
def xData (t : PriceTable) (useLags : Bool) (lagDays : List ℕ) : ChangeTable :=
  let feat := if useLags then addLagFeatures (changeTable t) lagDays else changeTable t
  let keepPos := (List.range feat.dates.length).filter
    (fun i => decide (feat.dates.getD i 0 ∈ targetIdx t))
  ⟨keepPos.map (fun i => feat.dates.getD i 0),
   feat.cols.map (fun col => (col.1, keepPos.map (fun i => col.2.getD i none)))⟩

/-- The column mean `StandardScaler` fits on `X_data` (`data.py` lines
198-199); `X_data` has no missing entries, so `reduceOption` only
strips the `some` wrappers. -/
def scalerMean (col : List (Option ℚ)) : ℚ := meanQ col.reduceOption

/-- The column variance `StandardScaler` fits (sklearn uses the
population variance, ddof = 0); the scaler's stored standard deviation
is its square root. -/
def scalerVar (col : List (Option ℚ)) : ℚ :=
  (col.reduceOption.map (fun x => (x - scalerMean col) ^ 2)).sum /
    col.reduceOption.length

/-- `StandardScaler.transform` of a single value with the stored
parameters: `(x - mean) / std`. -/
def scalerTransform (mu sigma x : ℚ) : ℚ := (x - mu) / sigma

/-- `raw_data.tail(5)` (`app.py` line 146). -/
def lastFive (v : List ℚ) : List ℚ := v.drop (v.length - 5)

/-- `daily_change = last_5_days.pct_change() * 100` followed by
`daily_change.iloc[1:]` (`app.py` lines 152-153). -/
def dailyChangeCol (v : List ℚ) : List (Option ℚ) :=
  ((pctChangeCol v).map (fun x => x.map (fun q => q * 100))).drop 1

/-- The value the serving path feeds the model for one column: the last
row of `daily_change` (`app.py` lines 190-204).  No stored scaler is
loaded or applied anywhere on this path. -/
def servingFeatureValue (v : List ℚ) : Option ℚ :=
  ((dailyChangeCol (lastFive v)).getLast?).join

/-- A concrete training price table for the standardization claim. -/
def trainTable : PriceTable := ⟨[0, 1, 2, 3], [("BIST100", [1, 4, 8, 16])]⟩

/-! ## Helper lemmas on list indexing -/

theorem getD_map_range {α : Type} (f : ℕ → α) (n i : ℕ) (d : α) :
    ((List.range n).map f).getD i d = if i < n then f i else d := by
  rcases Nat.lt_or_ge i n with h | h
  · rw [List.getD_eq_getElem?_getD, List.getElem?_map, List.getElem?_range h]
    simp [h]
  · rw [List.getD_eq_getElem?_getD, List.getElem?_eq_none (by simpa using h)]
    simp [Nat.not_lt.mpr h]

theorem pctChangeCol_getD (v : List ℚ) (i : ℕ) :
    (pctChangeCol v).getD i none =
      if 1 ≤ i ∧ i < v.length then
        some ((v.getD i 0 - v.getD (i - 1) 0) / v.getD (i - 1) 0)
      else none := by
  unfold pctChangeCol
  rw [getD_map_range]
  rcases Nat.lt_or_ge i v.length with h | h
  · simp only [h, if_true, and_true]
    rcases Nat.eq_zero_or_pos i with h0 | h0
    · simp [h0]
    · simp [Nat.pos_iff_ne_zero.mp h0, Nat.one_le_iff_ne_zero.mpr (Nat.pos_iff_ne_zero.mp h0)]
  · have : ¬(1 ≤ i ∧ i < v.length) := fun hc => absurd hc.2 (Nat.not_lt.mpr h)
    simp [Nat.not_lt.mpr h, this]

theorem length_filter_range_le (n k : ℕ) :
    ((List.range n).filter (fun i => decide (k ≤ i))).length = n - k := by
  induction n with
  | zero => simp
  | succ n ih =>
    rw [List.range_succ, List.filter_append, List.length_append, ih]
    rcases Nat.lt_or_ge n k with h | h
    · simp [Nat.not_le.mpr h, Nat.sub_eq_zero_of_le h, Nat.sub_eq_zero_of_le (Nat.le_of_lt h)]
    · simp only [List.filter_cons, decide_eq_true_eq, h, if_true, List.filter_nil,
        List.length_cons, List.length_nil]
      omega

theorem completeRow_pct (t : PriceTable)
    (hlen : ∀ c ∈ t.cols, c.2.length = t.dates.length) (hne : t.cols ≠ [])
    (i : ℕ) (hin : i < t.dates.length) :
    completeRow (pctChangeTable t).cols i = decide (1 ≤ i) := by
  have hmap : (pctChangeTable t).cols = t.cols.map (fun c => (c.1, pctChangeCol c.2)) := rfl
  rcases Nat.lt_or_ge i 1 with hi1 | hi1
  · -- row 0: each column's first pct-change entry is missing
    have h0 : i = 0 := by omega
    subst h0
    apply Bool.eq_false_iff.mpr
    intro hall
    obtain ⟨c, hc⟩ := List.exists_mem_of_ne_nil t.cols hne
    have hmem : (c.1, pctChangeCol c.2) ∈ (pctChangeTable t).cols := by
      rw [hmap]
      exact List.mem_map_of_mem _ hc
    have := List.all_eq_true.mp hall _ hmem
    rw [pctChangeCol_getD] at this
    simp at this
  · -- rows ≥ 1: every column has a value
    rw [decide_eq_true hi1]
    rw [completeRow, List.all_eq_true]
    intro col hcol
    rw [hmap] at hcol
    obtain ⟨c, hc, rfl⟩ := List.mem_map.mp hcol
    have hclen : c.2.length = t.dates.length := hlen c hc
    rw [pctChangeCol_getD, hclen]
    simp [hi1, hin]

theorem completeRows_pct (t : PriceTable)
    (hlen : ∀ c ∈ t.cols, c.2.length = t.dates.length) (hne : t.cols ≠ []) :
    completeRows t.dates.length (pctChangeTable t).cols =
      (List.range t.dates.length).filter (fun i => decide (1 ≤ i)) := by
  unfold completeRows
  apply List.filter_congr
  intro i hi
  exact completeRow_pct t hlen hne i (List.mem_range.mp hi)

/-- C2: for every valid PriceTable (sorted date index, no missing values,
positive prices; at least one row), the ChangeTable computed by the
feature builder (`data.py` lines 179-180, `df.pct_change().dropna()` plus
column renaming) has exactly one fewer row than the PriceTable, and no
entry of any of its columns is missing. -/
theorem change_table_shape (t : PriceTable) (hv : validPriceTable t)
    (_h1 : 1 ≤ t.dates.length) :
    (changeTable t).dates.length = t.dates.length - 1 ∧
    ∀ col ∈ (changeTable t).cols, col.2.length = t.dates.length - 1 ∧
      ∀ x ∈ col.2, x.isSome = true := by
  obtain ⟨hchain, hne, hcols⟩ := hv
  have hkeep : completeRows t.dates.length (pctChangeTable t).cols =
      (List.range t.dates.length).filter (fun i => decide (1 ≤ i)) :=
    completeRows_pct t (fun c hc => (hcols c hc).1) hne
  have hkeeplen : (completeRows t.dates.length (pctChangeTable t).cols).length
      = t.dates.length - 1 := by rw [hkeep, length_filter_range_le]
  constructor
  · show ((completeRows _ _).map _).length = _
    rw [List.length_map]
    exact hkeeplen
  · intro col hcol
    obtain ⟨c, hc, rfl⟩ := List.mem_map.mp hcol
    obtain ⟨c', hc', rfl⟩ := List.mem_map.mp hc
    refine ⟨?_, ?_⟩
    · show ((completeRows _ _).map _).length = _
      rw [List.length_map]
      exact hkeeplen
    · intro x hx
      obtain ⟨i, hi, rfl⟩ := List.mem_map.mp hx
      have hmem := List.mem_filter.mp hi
      have hrow : completeRow (pctChangeTable t).cols i = true := by
        simpa using hmem.2
      unfold completeRow at hrow
      exact List.all_eq_true.mp hrow c' hc'

theorem change_table_shape_witness :
    validPriceTable ⟨[0, 1, 2], [("BIST100", [1, 2, 4])]⟩ ∧
    (changeTable ⟨[0, 1, 2], [("BIST100", [1, 2, 4])]⟩).dates.length = 2 := by
  have hv : validPriceTable ⟨[0, 1, 2], [("BIST100", [1, 2, 4])]⟩ := by decide
  have h := change_table_shape ⟨[0, 1, 2], [("BIST100", [1, 2, 4])]⟩ hv (by decide)
  exact ⟨hv, h.1⟩

/-- C1: for every PriceTable with at least two rows, the label series
built by `prepare_data` (`data.py` lines 186-190) and
`prepare_training_data` (`data_collector.py` lines 146-150) over the
target column's prices has value 1 at position `d` iff the price at
`d + 1` exceeds the price at `d` (0 otherwise), and has one entry fewer
than the price column — no label exists for the last date. -/
theorem label_series_next_day (prices : List ℚ) (h2 : 2 ≤ prices.length) :
    (targetLabels prices).length = prices.length - 1 ∧
    ∀ i, i < prices.length - 1 →
      (targetLabels prices).getD i 0 =
        if prices.getD i 0 < prices.getD (i + 1) 0 then 1 else 0 := by
  have hlen : (targetLabels prices).length = prices.length - 1 := by
    unfold targetLabels
    rw [List.length_zipWith, List.length_dropLast, List.length_tail, Nat.min_self]
  refine ⟨hlen, ?_⟩
  intro i hi
  have hiL : i < (targetLabels prices).length := by omega
  have hip : i < prices.length := by omega
  have hip1 : i + 1 < prices.length := by omega
  rw [List.getD_eq_getElem?_getD, List.getElem?_eq_getElem hiL,
    List.getD_eq_getElem?_getD, List.getElem?_eq_getElem hip,
    List.getD_eq_getElem?_getD, List.getElem?_eq_getElem hip1]
  simp only [Option.getD_some]
  unfold targetLabels
  simp only [List.getElem_zipWith, List.getElem_dropLast, List.getElem_tail]

theorem label_series_next_day_witness :
    2 ≤ ([(1 : ℚ), 3, 2] : List ℚ).length ∧
    (targetLabels [(1 : ℚ), 3, 2]).length = 2 ∧
    (targetLabels [(1 : ℚ), 3, 2]).getD 0 0 = 1 ∧
    (targetLabels [(1 : ℚ), 3, 2]).getD 1 0 = 0 := by
  have h := label_series_next_day [(1 : ℚ), 3, 2] (by norm_num)
  refine ⟨by norm_num, by simpa using h.1, ?_, ?_⟩
  · rw [h.2 0 (by norm_num)]
    norm_num
  · rw [h.2 1 (by norm_num)]
    norm_num

theorem shiftCol_getD (lag : ℕ) (v : List (Option ℚ)) (i : ℕ) :
    (shiftCol lag v).getD i none =
      if i < v.length then (if i < lag then none else v.getD (i - lag) none)
      else none := by
  unfold shiftCol
  rw [getD_map_range]

theorem le_maxLag (l : List ℕ) : ∀ a ∈ l, a ≤ maxLag l := by
  induction l with
  | nil => simp
  | cons b rest ih =>
    intro a ha
    rcases List.mem_cons.mp ha with rfl | ha
    · exact Nat.le_max_left _ _
    · exact Nat.le_trans (ih a ha) (Nat.le_max_right _ _)

theorem maxLag_le (l : List ℕ) (i : ℕ) (h : ∀ a ∈ l, a ≤ i) : maxLag l ≤ i := by
  induction l with
  | nil => exact Nat.zero_le i
  | cons b rest ih =>
    exact Nat.max_le.mpr ⟨h b (List.mem_cons_self b rest),
      ih (fun a ha => h a (List.mem_cons_of_mem b ha))⟩

theorem completeRow_lagged (c : ChangeTable) (lagDays : List ℕ)
    (hwf : ∀ col ∈ c.cols, col.2.length = c.dates.length)
    (hnm : ∀ col ∈ c.cols, ∀ x ∈ col.2, x.isSome = true)
    (hext : c.cols.filter (fun col => !strStartsWith col.1 "BIST100") ≠ [])
    (i : ℕ) (hin : i < c.dates.length) :
    completeRow (c.cols ++ lagColumns c.cols lagDays) i =
      decide (maxLag lagDays ≤ i) := by
  have horig : ∀ col ∈ c.cols, ((col.2.getD i none).isSome : Bool) = true := by
    intro col hcol
    have hlen : col.2.length = c.dates.length := hwf col hcol
    have hi' : i < col.2.length := by omega
    rw [List.getD_eq_getElem?_getD, List.getElem?_eq_getElem hi', Option.getD_some]
    exact hnm col hcol _ (List.getElem_mem hi')
  rcases le_or_lt (maxLag lagDays) i with hle | hlt
  · rw [decide_eq_true hle]
    rw [completeRow, List.all_eq_true]
    intro col hcol
    rcases List.mem_append.mp hcol with hcol | hcol
    · exact horig col hcol
    · obtain ⟨src, hsrc, hcol⟩ := List.mem_flatMap.mp hcol
      obtain ⟨lag, hlag, rfl⟩ := List.mem_map.mp hcol
      have hsrc' : src ∈ c.cols := (List.mem_filter.mp hsrc).1
      have hlen : src.2.length = c.dates.length := hwf src hsrc'
      have hlagle : lag ≤ i := Nat.le_trans (le_maxLag lagDays lag hlag) hle
      have hi' : i < src.2.length := by omega
      rw [shiftCol_getD]
      simp only [hi', if_true, Nat.not_lt.mpr hlagle, if_neg (Nat.not_lt.mpr hlagle)]
      have hsub : i - lag < src.2.length := by omega
      rw [List.getD_eq_getElem?_getD, List.getElem?_eq_getElem hsub, Option.getD_some]
      exact hnm src hsrc' _ (List.getElem_mem hsub)
  · have hdec : decide (maxLag lagDays ≤ i) = false := by
      simp [Nat.not_le.mpr hlt]
    rw [hdec]
    apply Bool.eq_false_iff.mpr
    intro hall
    -- some configured lag exceeds i, so the corresponding lag column of
    -- the first external column is missing at row i
    have hxlag : ∃ lag ∈ lagDays, i < lag := by
      by_contra hno
      push_neg at hno
      exact absurd (maxLag_le lagDays i hno) (Nat.not_le.mpr hlt)
    obtain ⟨lag, hlag, hilag⟩ := hxlag
    obtain ⟨src, hsrc⟩ := List.exists_mem_of_ne_nil _ hext
    have hmem : (src.1 ++ "_lag" ++ toString lag, shiftCol lag src.2) ∈
        c.cols ++ lagColumns c.cols lagDays := by
      apply List.mem_append_right
      exact List.mem_flatMap.mpr ⟨src, hsrc, List.mem_map.mpr ⟨lag, hlag, rfl⟩⟩
    have := List.all_eq_true.mp hall _ hmem
    rw [shiftCol_getD] at this
    simp [hilag] at this

/-- C3 counterexample: the claim's row-count equation fails on a change
table whose only column is the target: `add_lag_features` then adds no
lag columns, `dropna` removes nothing, and the row count stays `2`
instead of dropping to `2 - max{1} = 1`.  The input satisfies the
claim's hypotheses: no missing values and a non-empty lag list. -/
theorem add_lag_features_shape_cex :
    (∀ col ∈ (⟨[0, 1], [("BIST100_change", [some 1, some 2])]⟩ : ChangeTable).cols,
      ∀ x ∈ col.2, x.isSome = true) ∧
    ([1] : List ℕ) ≠ [] ∧
    (addLagFeatures ⟨[0, 1], [("BIST100_change", [some (1 : ℚ), some 2])]⟩
      [1]).dates.length = 2 ∧
    (2 : ℕ) - maxLag [1] = 1 := by decide

/-- C3 (amended): for every rectangular change table with no missing
values that has at least one non-`BIST100` column, and every non-empty
lag configuration, `add_lag_features` returns a table with
`rows − max(lagDays)` rows; moreover every added lag column is derived
from a column whose name does not start with `BIST100` — the target
column never receives a lagged copy. -/
theorem add_lag_features_shape (c : ChangeTable) (lagDays : List ℕ)
    (hwf : ∀ col ∈ c.cols, col.2.length = c.dates.length)
    (hnm : ∀ col ∈ c.cols, ∀ x ∈ col.2, x.isSome = true)
    (_hne : lagDays ≠ [])
    (hext : c.cols.filter (fun col => !strStartsWith col.1 "BIST100") ≠ []) :
    (addLagFeatures c lagDays).dates.length = c.dates.length - maxLag lagDays ∧
    ∀ p ∈ lagColumns c.cols lagDays, ∃ col ∈ c.cols,
      strStartsWith col.1 "BIST100" = false ∧ ∃ lag ∈ lagDays,
        p = (col.1 ++ "_lag" ++ toString lag, shiftCol lag col.2) := by
  constructor
  · show ((completeRows _ _).map _).length = _
    rw [List.length_map]
    have hrows : completeRows c.dates.length (c.cols ++ lagColumns c.cols lagDays) =
        (List.range c.dates.length).filter (fun i => decide (maxLag lagDays ≤ i)) := by
      unfold completeRows
      apply List.filter_congr
      intro i hi
      exact completeRow_lagged c lagDays hwf hnm hext i (List.mem_range.mp hi)
    rw [hrows, length_filter_range_le]
  · intro p hp
    obtain ⟨src, hsrc, hp⟩ := List.mem_flatMap.mp hp
    obtain ⟨lag, hlag, rfl⟩ := List.mem_map.mp hp
    have hmem := List.mem_filter.mp hsrc
    refine ⟨src, hmem.1, ?_, lag, hlag, rfl⟩
    have := hmem.2
    simp only [Bool.not_eq_true'] at this
    simpa using this

theorem add_lag_features_shape_witness :
    (addLagFeatures
      ⟨[0, 1, 2], [("BIST100_change", [some 1, some 2, some 3]),
                   ("Gold_change", [some (1 : ℚ), some 1, some 2])]⟩
      [1]).dates.length = 2 := by
  have h := add_lag_features_shape
    ⟨[0, 1, 2], [("BIST100_change", [some 1, some 2, some 3]),
                 ("Gold_change", [some (1 : ℚ), some 1, some 2])]⟩
    [1] (by decide) (by decide) (by decide) (by decide)
  simpa using h.1

theorem exists_getD_of_mem {l : List ℚ} {x : ℚ} (h : x ∈ l) :
    ∃ j, j < l.length ∧ l.getD j 0 = x := by
  obtain ⟨n, hn, hx⟩ := List.getElem_of_mem h
  exact ⟨n, hn, by rw [List.getD_eq_getElem?_getD, List.getElem?_eq_getElem hn]; exact hx⟩

theorem selectFold_const (l : List ℚ) : ∀ (k : ℕ) (b : ℚ) (o : Option ℕ),
    (∀ x ∈ l, x ≤ b) → (l.enumFrom k).foldl selectStep ⟨b, o⟩ = ⟨b, o⟩ := by
  induction l with
  | nil => intros; rfl
  | cons a rest ih =>
    intro k b o h
    rw [List.enumFrom_cons, List.foldl_cons]
    have hstep : selectStep ⟨b, o⟩ (k, a) = ⟨b, o⟩ := by
      have : ¬(b < a) := not_lt.mpr (h a (List.mem_cons_self a rest))
      simp [selectStep, this]
    rw [hstep]
    exact ih (k + 1) b o (fun x hx => h x (List.mem_cons_of_mem a hx))

theorem selectFold_spec (l : List ℚ) : ∀ (k : ℕ) (b : ℚ) (o : Option ℕ),
    (∃ a ∈ l, b < a) →
    ∃ i, i < l.length ∧
      (l.enumFrom k).foldl selectStep ⟨b, o⟩ = ⟨l.getD i 0, some (k + i)⟩ ∧
      (∀ j < i, l.getD j 0 < l.getD i 0) ∧
      (∀ j < l.length, l.getD j 0 ≤ l.getD i 0) := by
  induction l with
  | nil => intro k b o h; simp at h
  | cons a rest ih =>
    intro k b o hex
    rw [List.enumFrom_cons, List.foldl_cons]
    by_cases hab : b < a
    · have hstep : selectStep ⟨b, o⟩ (k, a) = ⟨a, some k⟩ := by
        simp [selectStep, hab]
      rw [hstep]
      by_cases hrest : ∃ x ∈ rest, a < x
      · obtain ⟨i, hi, heq, hfirst, hmax⟩ := ih (k + 1) a (some k) hrest
        refine ⟨i + 1, by simpa using Nat.succ_lt_succ hi, ?_, ?_, ?_⟩
        · rw [heq, List.getD_cons_succ]
          have : k + 1 + i = k + (i + 1) := by omega
          rw [this]
        · intro j hj
          cases j with
          | zero =>
            obtain ⟨x, hx, hax⟩ := hrest
            obtain ⟨jx, hjx, hgx⟩ := exists_getD_of_mem hx
            calc (a :: rest).getD 0 0 = a := List.getD_cons_zero
              _ < x := hax
              _ = rest.getD jx 0 := hgx.symm
              _ ≤ rest.getD i 0 := hmax jx hjx
              _ = (a :: rest).getD (i + 1) 0 := (List.getD_cons_succ).symm
          | succ j' =>
            rw [List.getD_cons_succ, List.getD_cons_succ]
            exact hfirst j' (by omega)
        · intro j hj
          cases j with
          | zero =>
            obtain ⟨x, hx, hax⟩ := hrest
            obtain ⟨jx, hjx, hgx⟩ := exists_getD_of_mem hx
            calc (a :: rest).getD 0 0 = a := List.getD_cons_zero
              _ ≤ rest.getD i 0 := le_of_lt (lt_of_lt_of_le (hgx ▸ hax) (hmax jx hjx))
              _ = (a :: rest).getD (i + 1) 0 := (List.getD_cons_succ).symm
          | succ j' =>
            rw [List.getD_cons_succ, List.getD_cons_succ]
            exact hmax j' (by simpa using hj)
      · push_neg at hrest
        rw [selectFold_const rest (k + 1) a (some k) (fun x hx => hrest x hx)]
        refine ⟨0, by simp, by simp, by omega, ?_⟩
        intro j hj
        cases j with
        | zero => simp
        | succ j' =>
          rw [List.getD_cons_succ, List.getD_cons_zero]
          have hj' : j' < rest.length := by simpa using hj
          have hmem : rest.getD j' 0 ∈ rest := by
            rw [List.getD_eq_getElem?_getD, List.getElem?_eq_getElem hj', Option.getD_some]
            exact List.getElem_mem hj'
          exact hrest _ hmem
    · have hstep : selectStep ⟨b, o⟩ (k, a) = ⟨b, o⟩ := by
        simp [selectStep, hab]
      rw [hstep]
      have hrest : ∃ x ∈ rest, b < x := by
        obtain ⟨x, hx, hbx⟩ := hex
        rcases List.mem_cons.mp hx with rfl | hx'
        · exact absurd hbx hab
        · exact ⟨x, hx', hbx⟩
      obtain ⟨i, hi, heq, hfirst, hmax⟩ := ih (k + 1) b o hrest
      have hhead : a < rest.getD i 0 := by
        obtain ⟨x, hx, hbx⟩ := hrest
        obtain ⟨jx, hjx, hgx⟩ := exists_getD_of_mem hx
        calc a ≤ b := not_lt.mp hab
          _ < x := hbx
          _ = rest.getD jx 0 := hgx.symm
          _ ≤ rest.getD i 0 := hmax jx hjx
      refine ⟨i + 1, by simpa using Nat.succ_lt_succ hi, ?_, ?_, ?_⟩
      · rw [heq, List.getD_cons_succ]
        have : k + 1 + i = k + (i + 1) := by omega
        rw [this]
      · intro j hj
        cases j with
        | zero =>
          rw [List.getD_cons_zero, List.getD_cons_succ]
          exact hhead
        | succ j' =>
          rw [List.getD_cons_succ, List.getD_cons_succ]
          exact hfirst j' (by omega)
      · intro j hj
        cases j with
        | zero =>
          rw [List.getD_cons_zero, List.getD_cons_succ]
          exact le_of_lt hhead
        | succ j' =>
          rw [List.getD_cons_succ, List.getD_cons_succ]
          exact hmax j' (by simpa using hj)

/-- C5 counterexample: when every candidate's held-out accuracy is `0`
(a reachable value of `accuracy_score`), the loop's `accuracy >
best_accuracy` test never fires against the initial `best_accuracy = 0`,
so no candidate at all is retained — contradicting the claim that the
candidate with greatest accuracy (ties to the earliest) is retained. -/
theorem model_selection_cex :
    (selectBest (List.replicate 5 (0 : ℚ))).best = none := by decide

/-- C5 (amended): for a candidate accuracy list of the fixed grid's
length in which some accuracy is strictly positive, the selector retains
exactly the first candidate attaining the maximum accuracy: every
earlier candidate is strictly worse (so an equal accuracy never replaces
the current best) and no candidate is better. -/
theorem model_selection_first_argmax (accs : List ℚ)
    (_hlen : accs.length = paramCombinations.length)
    (hpos : ∃ a ∈ accs, 0 < a) :
    ∃ i, i < accs.length ∧ (selectBest accs).best = some i ∧
      (selectBest accs).bestAccuracy = accs.getD i 0 ∧
      (∀ j < i, accs.getD j 0 < accs.getD i 0) ∧
      (∀ j < accs.length, accs.getD j 0 ≤ accs.getD i 0) := by
  obtain ⟨i, hi, heq, hfirst, hmax⟩ := selectFold_spec accs 0 0 none hpos
  have hsel : selectBest accs = ⟨accs.getD i 0, some (0 + i)⟩ := heq
  refine ⟨i, hi, ?_, ?_, hfirst, hmax⟩
  · rw [hsel]
    simp
  · rw [hsel]

theorem model_selection_first_argmax_witness :
    ∃ i, i < ([1, 2, 2, 0, 1] : List ℚ).length ∧
      (selectBest [1, 2, 2, 0, 1]).best = some i ∧
      (selectBest [1, 2, 2, 0, 1]).bestAccuracy =
        ([1, 2, 2, 0, 1] : List ℚ).getD i 0 ∧
      (∀ j < i, ([1, 2, 2, 0, 1] : List ℚ).getD j 0 <
        ([1, 2, 2, 0, 1] : List ℚ).getD i 0) ∧
      (∀ j < ([1, 2, 2, 0, 1] : List ℚ).length,
        ([1, 2, 2, 0, 1] : List ℚ).getD j 0 ≤
          ([1, 2, 2, 0, 1] : List ℚ).getD i 0) :=
  model_selection_first_argmax [1, 2, 2, 0, 1] (by decide)
    ⟨1, by decide, by decide⟩

/-- C6 counterexample: with `verbose=False` and a selected best model,
`train_with_different_params` never persists it — `save_model` sits
inside `if best_model is not None and verbose:` (`model.py` lines
211-218) — contradicting the claim that a produced best model is always
persisted. -/
theorem below_threshold_persistence_cex :
    ((trainWithDifferentParams [1, 0, 0, 0, 0] false).best).isSome = true ∧
    (trainWithDifferentParams [1, 0, 0, 0, 0] false).saved = false := by decide

/-- C6 (amended): when verbose reporting is enabled, whenever the model
selector produces a best model, that model is persisted regardless of
whether its held-out accuracy exceeds the 0.55 success threshold; the
threshold comparison only determines the reported success flag, after
the model has already been saved. -/
theorem below_threshold_persistence (accs : List ℚ)
    (hbest : (selectBest accs).best.isSome = true) :
    (trainWithDifferentParams accs true).saved = true ∧
    (trainWithDifferentParams accs true).successFlag =
      some (decide (successThreshold < (selectBest accs).bestAccuracy)) := by
  unfold trainWithDifferentParams
  simp [hbest]

theorem below_threshold_persistence_witness :
    (trainWithDifferentParams [1, 0, 0, 0, 0] true).saved = true ∧
    (trainWithDifferentParams [1, 0, 0, 0, 0] true).successFlag = some true := by
  have h := below_threshold_persistence [1, 0, 0, 0, 0] (by decide)
  refine ⟨h.1, ?_⟩
  rw [h.2]
  have hacc : (selectBest [1, 0, 0, 0, 0]).bestAccuracy = 1 := by decide
  rw [hacc]
  norm_num [successThreshold]

/-- C7 counterexample: for the stored feature-name list `[]` (a stored
list, but empty), Python's `if model_features:` is false, so the serving
path uses every computed change instead of producing the empty vector
the stored list prescribes. -/
theorem serving_features_cex :
    prepareServingFeatures (some []) [("Gold_change", (2 : ℚ))] = [2] ∧
    ([2] : List ℚ) ≠ [] := by decide

/-- C7 (amended): for every non-empty stored feature-name list, the
served vector has exactly the stored length and its `i`-th entry is the
computed change row's value for the `i`-th stored name, or `0` when that
name is absent from the row — so prediction input construction never
fails on missing features. -/
theorem serving_features_match (feats : List String) (row : List (String × ℚ))
    (hne : feats ≠ []) :
    (prepareServingFeatures (some feats) row).length = feats.length ∧
    ∀ i, i < feats.length →
      (prepareServingFeatures (some feats) row).getD i 0 =
        (row.lookup (feats.getD i "")).getD 0 := by
  have hres : prepareServingFeatures (some feats) row =
      feats.map (fun f => (row.lookup f).getD 0) := by
    by_cases h : feats.all (fun f => (row.lookup f).isSome) <;>
      simp [prepareServingFeatures, List.isEmpty_iff, hne, h]
  rw [hres]
  refine ⟨List.length_map feats _, ?_⟩
  intro i hi
  have h1 : (feats.map (fun f => (row.lookup f).getD 0)).getD i 0
      = (row.lookup feats[i]).getD 0 := by
    rw [List.getD_eq_getElem?_getD, List.getElem?_map, List.getElem?_eq_getElem hi]
    rfl
  have h2 : feats.getD i "" = feats[i] := by
    rw [List.getD_eq_getElem?_getD, List.getElem?_eq_getElem hi]
    rfl
  rw [h1, h2]

theorem serving_features_match_witness :
    (prepareServingFeatures (some ["Gold_change", "Oil_change"])
      [("Gold_change", (7 : ℚ))]).length = 2 ∧
    (prepareServingFeatures (some ["Gold_change", "Oil_change"])
      [("Gold_change", (7 : ℚ))]).getD 0 0 = 7 ∧
    (prepareServingFeatures (some ["Gold_change", "Oil_change"])
      [("Gold_change", (7 : ℚ))]).getD 1 0 = 0 := by
  have h := serving_features_match ["Gold_change", "Oil_change"]
    [("Gold_change", (7 : ℚ))] (by decide)
  refine ⟨by simpa using h.1, ?_, ?_⟩
  · rw [h.2 0 (by norm_num)]
    decide
  · rw [h.2 1 (by norm_num)]
    decide

theorem mem_lagCorrRecordsAux (c : ChangeTable) (targetCol : String)
    (tv : List (Option ℚ)) (rec : LagCorrRecord) :
    rec ∈ lagCorrRecordsAux c targetCol tv ↔
      ∃ col ∈ c.cols, col.1 ≠ targetCol ∧ ∃ lag, 1 ≤ lag ∧ lag ≤ 30 ∧
        validIdx c.dates col.2 lag ≠ [] ∧
        rec = ⟨col.1, lag,
          pearson (valsAt tv (validPositions c.dates.length col.2 lag))
            (valsAt (shiftCol lag col.2) (validPositions c.dates.length col.2 lag))⟩ := by
  unfold lagCorrRecordsAux
  rw [List.mem_flatMap]
  constructor
  · rintro ⟨col, hcolf, hrec⟩
    obtain ⟨hcol, hne⟩ := List.mem_filter.mp hcolf
    obtain ⟨lag, hlag, hsome⟩ := List.mem_filterMap.mp hrec
    obtain ⟨j, hj, rfl⟩ := List.mem_range'.mp hlag
    by_cases hvi : validIdx c.dates col.2 (1 + 1 * j) ≠ []
    · rw [if_pos hvi] at hsome
      exact ⟨col, hcol, by simpa using hne, 1 + 1 * j, by omega, by omega, hvi,
        (Option.some_inj.mp hsome).symm⟩
    · rw [if_neg hvi] at hsome
      exact absurd hsome (by simp)
  · rintro ⟨col, hcol, hne, lag, h1, h30, hvi, rfl⟩
    refine ⟨col, List.mem_filter.mpr ⟨hcol, by simpa using hne⟩, ?_⟩
    apply List.mem_filterMap.mpr
    refine ⟨lag, List.mem_range'.mpr ⟨lag - 1, by omega, by omega⟩, ?_⟩
    rw [if_pos hvi]

/-- C4: for every PriceTable whose change frame contains the target
column, the analyzer's long-form output contains a record for variable
`v` at lag `k` iff `v` is a non-target column of the change frame,
`k ∈ [1, 30]`, and the intersection of the `k`-shifted series' valid
date index with the target series' date index is non-empty; the
record's correlation is the Pearson correlation of the two series over
exactly the rows of that intersection.  Pairs with an empty
intersection are omitted entirely, and the correlation value is
undefined (`NaN`/`none`) whenever fewer than two points are
available. -/
theorem analyzer_record_characterization (t : PriceTable) (targetCol : String)
    (tv : List (Option ℚ))
    (htv : lookupCol (changeFrame t).cols targetCol = some tv) :
    (∀ rec : LagCorrRecord, rec ∈ lagCorrRecords t targetCol ↔
      ∃ col ∈ (changeFrame t).cols, col.1 ≠ targetCol ∧
        ∃ lag, 1 ≤ lag ∧ lag ≤ 30 ∧
          validIdx (changeFrame t).dates col.2 lag ≠ [] ∧
          rec = ⟨col.1, lag,
            pearson (valsAt tv (validPositions (changeFrame t).dates.length col.2 lag))
              (valsAt (shiftCol lag col.2)
                (validPositions (changeFrame t).dates.length col.2 lag))⟩) ∧
    (∀ xs ys : List ℚ, xs.length < 2 → pearson xs ys = none) := by
  have heq : lagCorrRecords t targetCol = lagCorrRecordsAux (changeFrame t) targetCol tv := by
    unfold lagCorrRecords
    rw [htv]
  refine ⟨?_, ?_⟩
  · intro rec
    rw [heq]
    exact mem_lagCorrRecordsAux _ _ _ _
  · intro xs ys h
    unfold pearson
    rw [if_pos h]

theorem analyzer_record_characterization_witness :
    (⟨"Gold", 1,
      pearson
        (valsAt sampleTargetChanges
          (validPositions (changeFrame samplePriceTable).dates.length sampleGoldChanges 1))
        (valsAt (shiftCol 1 sampleGoldChanges)
          (validPositions (changeFrame samplePriceTable).dates.length sampleGoldChanges 1))⟩ :
      LagCorrRecord) ∈ lagCorrRecords samplePriceTable "BIST100" := by
  have htv : lookupCol (changeFrame samplePriceTable).cols "BIST100" =
      some sampleTargetChanges := rfl
  have h := analyzer_record_characterization samplePriceTable "BIST100"
    sampleTargetChanges htv
  apply (h.1 _).mpr
  refine ⟨("Gold", sampleGoldChanges), ?_, by decide, 1, le_refl 1, by norm_num, ?_, rfl⟩
  · exact List.mem_cons_of_mem _ (List.mem_cons_self _ _)
  · decide

/-- C10: whenever the analyzer produces zero long-form records for a
PriceTable whose change frame does contain the target column (for
example a table holding only the target column), `analyze_lag_importance`
raises (`KeyError` from pivoting an empty record collection) instead of
returning an empty long-form table and an empty pivot. -/
theorem analyzer_empty_pivot_raises (t : PriceTable) (targetCol : String)
    (tv : List (Option ℚ))
    (htv : lookupCol (changeFrame t).cols targetCol = some tv)
    (hempty : lagCorrRecords t targetCol = []) :
    analyzeLagImportance t targetCol = Except.error "KeyError: variable" := by
  unfold analyzeLagImportance
  rw [htv]
  simp [hempty, pivotRecords]

theorem analyzer_empty_pivot_raises_witness :
    analyzeLagImportance ⟨[0, 1, 2], [("BIST100", [1, 2, 4])]⟩ "BIST100" =
      Except.error "KeyError: variable" :=
  analyzer_empty_pivot_raises ⟨[0, 1, 2], [("BIST100", [1, 2, 4])]⟩ "BIST100" _ rfl rfl

theorem fillNa_names (t : RawTable) :
    (fillNa t).cols.map (fun c => c.1) = t.cols.map (fun c => c.1) := by
  unfold fillNa
  by_cases h : t.cols.any (fun c => c.2.any (fun x => x.isNone)) <;>
    simp [h, List.map_map, Function.comp_def]

theorem mergeSeries_names (frames : List (String × List (Int × ℚ))) :
    (mergeSeries frames).cols.map (fun c => c.1) = frames.map (fun f => f.1) := by
  unfold mergeSeries
  simp [List.map_map, Function.comp_def]

theorem filterMap_retrieved_names (g : String × String → Option (List (Int × ℚ)))
    (symbols : List (String × String)) :
    (symbols.filterMap (fun s => (g s).map (fun ser => (s.1, ser)))).map
        (fun c => c.1) =
      (symbols.filter (fun s => (g s).isSome)).map (fun s => s.1) := by
  induction symbols with
  | nil => rfl
  | cons a rest ih =>
    cases hg : g a with
    | none => simp [List.filterMap_cons, List.filter_cons, hg, ih]
    | some ser => simp [List.filterMap_cons, List.filter_cons, hg, ih]

/-- C9: for every provider and symbol list, `download_data` never fails
because a single symbol is unavailable: it returns `None` exactly when
zero symbols were retrievable (the distinct empty-result signal), and
whenever it returns a table, that table's columns are exactly the
successfully retrieved symbols' names, in order. -/
theorem download_data_policy (provider : String → Option (List (Int × ℚ)))
    (symbols : List (String × String)) :
    (downloadData provider symbols = none ↔
      ∀ s ∈ symbols, retrievedSeries provider s.2 = none) ∧
    ∀ t, downloadData provider symbols = some t →
      t.cols.map (fun c => c.1) =
        (symbols.filter (fun s => (retrievedSeries provider s.2).isSome)).map
          (fun s => s.1) := by
  constructor
  · unfold downloadData
    by_cases h : (symbols.filterMap
        (fun s => (retrievedSeries provider s.2).map (fun ser => (s.1, ser)))).isEmpty = true
    · simp only [h, if_true]
      constructor
      · intro _ s hs
        have hnil := List.isEmpty_iff.mp h
        have := List.filterMap_eq_nil_iff.mp hnil s hs
        exact Option.map_eq_none'.mp this
      · intro _
        trivial
    · simp only [h, if_false]
      constructor
      · intro hcontra
        exact absurd hcontra (by simp)
      · intro hall
        exfalso
        apply h
        rw [List.isEmpty_iff]
        apply List.filterMap_eq_nil_iff.mpr
        intro s hs
        rw [hall s hs]
        rfl
  · intro t ht
    unfold downloadData at ht
    by_cases h : (symbols.filterMap
        (fun s => (retrievedSeries provider s.2).map (fun ser => (s.1, ser)))).isEmpty = true
    · rw [if_pos h] at ht
      exact absurd ht (by simp)
    · rw [if_neg h] at ht
      have ht' := (Option.some_inj.mp ht).symm
      rw [ht', fillNa_names, mergeSeries_names, filterMap_retrieved_names]

theorem download_data_policy_witness :
    (fillNa (mergeSeries [("BIST100", [((0 : Int), (10 : ℚ)), (1, 11)])])).cols.map
      (fun c => c.1) = ["BIST100"] := by
  have h := (download_data_policy sampleProvider
      [("BIST100", "XU100.IS"), ("Gold", "GC=F")]).2
    (fillNa (mergeSeries [("BIST100", [((0 : Int), (10 : ℚ)), (1, 11)])])) (by rfl)
  rw [h]
  decide

/-- C8 (code-bug demonstration): the serving path's feature value is the
raw percent change of the last two prices times 100
(`daily_change = last_5_days.pct_change() * 100`, `app.py` lines
152-204) with no scaler applied, while the standardization parameters
fitted at preparation time (`data.py` lines 197-199) demand the
transformed value `(x - mean)/std`.  With training prices
`[1, 4, 8, 16]` the fitted parameters of the only feature column are
mean 2 and std 1, the fresh change is `(16-8)/8 = 1`, the correctly
scaled value is `-1`, and the served value is `100 ≠ -1`. -/
theorem serving_skips_scaler :
    servingFeatureValue [1, 4, 8, 16] = some 100 ∧
    scalerMean ((lookupCol (xData trainTable false []).cols "BIST100_change").getD []) = 2 ∧
    scalerVar ((lookupCol (xData trainTable false []).cols "BIST100_change").getD []) = 1 ∧
    scalerTransform 2 1 (((16 : ℚ) - 8) / 8) = -1 ∧
    servingFeatureValue [1, 4, 8, 16] ≠
      some (scalerTransform 2 1 (((16 : ℚ) - 8) / 8)) := by
  have h1 : servingFeatureValue [1, 4, 8, 16] = some (((16 : ℚ) - 8) / 8 * 100) := rfl
  have hx : (lookupCol (xData trainTable false []).cols "BIST100_change").getD []
      = [some (((4 : ℚ) - 1) / 1), some (((8 : ℚ) - 4) / 4)] := rfl
  refine ⟨?_, ?_, ?_, ?_, ?_⟩
  · rw [h1]
    norm_num
  · rw [hx]
    norm_num [scalerMean, meanQ, List.reduceOption_cons_of_some, List.reduceOption_nil]
  · rw [hx]
    norm_num [scalerVar, scalerMean, meanQ, List.reduceOption_cons_of_some,
      List.reduceOption_nil]
  · norm_num [scalerTransform]
  · rw [h1]
    norm_num [scalerTransform]

end Bist
